import Mathlib

/-!
Shallow embedding of `dblp2bibtex.py` (bibutil).

Strings are handled as `List Char` wherever the Python code indexes, slices
or searches, with `String` wrappers at the boundaries.  Python `str` methods
(`find`, `strip`, `split`, slicing, indexing) are translated by the `py*`
primitives below, including negative-index wrapping and `IndexError`.
Python dicts are modelled as insertion sequences where the last write wins.
The HTTP layer (`requests.get`) is modelled as a total map from URL to
response; the network-failure and `KeyboardInterrupt` paths of the script are
outside this model, while the `IndexError` that `validate_bib` can raise is
modelled explicitly because the script's bare `except:` catches it.
-/

namespace Bibutil

/-- Python `IndexError`, raised by out-of-range indexing. -/
inductive PyErr where
  | indexError
  deriving DecidableEq

/-- Ways a run of the script can terminate abnormally: `sys.exit(code)`, or an
uncaught Python exception such as `FileNotFoundError` from `open`. -/
inductive RunError where
  | systemExit (code : Nat)
  | fileNotFoundError (name : String)
  deriving DecidableEq

/-- Python whitespace class, as used by `str.strip()` and `str.split()`. -/
def pyWS (c : Char) : Bool :=
  c == ' ' || c == '\t' || c == '\n' || c == '\r' || c == '\x0b' || c == '\x0c'

/-- Index of the first occurrence of `pat` in a character list, if any
(the search core shared by Python `in` and `str.find`). -/
def pyFindAux (pat : List Char) : List Char → Option Nat
  | [] => if pat.isEmpty then some 0 else none
  | c :: t => if pat.isPrefixOf (c :: t) then some 0 else (pyFindAux pat t).map (· + 1)

/-- Python `pat in s` substring test. -/
def pyContains (s pat : List Char) : Bool := (pyFindAux pat s).isSome

/-- Python `s.find(pat)`: index of the first occurrence, `-1` if absent. -/
def pyFind (s pat : List Char) : Int :=
  match pyFindAux pat s with
  | some n => (n : Int)
  | none => -1

/-- Python `s.find(pat, start)`, with Python's treatment of a negative
`start` (wrap by the length, then clamp at 0). -/
def pyFindFrom (s pat : List Char) (start : Int) : Int :=
  let n : Int := s.length
  let st := if start < 0 then max (start + n) 0 else start
  match pyFindAux pat (s.drop st.toNat) with
  | some k => st + k
  | none => -1

/-- Python slice `s[a:b]`, with negative bounds wrapped and everything
clamped to the string, as in CPython. -/
def pySlice (s : List Char) (a b : Int) : List Char :=
  let n : Int := s.length
  let a' := if a < 0 then max (a + n) 0 else min a n
  let b' := if b < 0 then max (b + n) 0 else min b n
  (s.take b'.toNat).drop a'.toNat

/-- Python `s[i]`: negative indices wrap by the length; out-of-range raises
`IndexError`. -/
def pyIndex (s : List Char) (i : Int) : Except PyErr Char :=
  let j := if i < 0 then i + s.length else i
  if j < 0 then .error .indexError
  else
    match s[j.toNat]? with
    | some c => .ok c
    | none => .error .indexError

/-- Python `s.strip()` (whitespace from both ends). -/
def pyStrip (l : List Char) : List Char :=
  ((l.dropWhile pyWS).reverse.dropWhile pyWS).reverse

/-- Python `s.strip(" ")` (spaces only, from both ends). -/
def pyStripSp (l : List Char) : List Char :=
  ((l.dropWhile (· == ' ')).reverse.dropWhile (· == ' ')).reverse

/-- Python `s.split()`: whitespace tokenisation discarding empty tokens. -/
def pyWords (l : List Char) : List (List Char) :=
  (l.splitOnP pyWS).filter (· ≠ [])

/-- Python `s.split(",")`: split on every comma, keeping empty fragments. -/
def pySplitComma (l : List Char) : List (List Char) := l.splitOn ','

/-- Python `s[n:]` for a nonnegative `n`, on `String`. -/
def pyDrop (s : String) (n : Nat) : String := ⟨s.data.drop n⟩

/-- Python `pat in s` on `String`. -/
def strContains (s pat : String) : Bool := pyContains s.data pat.data

/-- Code-point lexicographic `≤` on character lists, the order Python's
`sorted` uses on strings. -/
def lexLe : List Char → List Char → Bool
  | [], _ => true
  | _ :: _, [] => false
  | a :: x, b :: y => if a < b then true else if b < a then false else lexLe x y

/-- Code-point lexicographic `≤` on `String`. -/
def strLe (a b : String) : Bool := lexLe a.data b.data

/-- Python `sorted(...)` on a list of strings: sorting by the code-point
lexicographic order (insertion sort, extensionally Python's sort since the
inputs here are duplicate-free). -/
def pySorted (l : List String) : List String :=
  l.insertionSort (fun a b => strLe a b = true)

/-- Python `sorted(set(...))` on a list of strings. -/
def pySortedSet (l : List String) : List String := pySorted l.dedup

/-- Python dict as an insertion sequence; later writes win. -/
abbrev Dict := List (String × String)

/-- Python `m[k] = v`. -/
def dput (m : Dict) (k v : String) : Dict := m ++ [(k, v)]

/-- Python `m[k]` lookup / `k in m` test: the value of the last write. -/
def dget (m : Dict) (k : String) : Option String :=
  (m.reverse.find? (fun p => p.1 == k)).map (·.2)

/-- Model of `find_citation` (dblp2bibtex.py lines 96-109).  Note both branches look
up `l.find("{")`, the first opening brace of the whole line, not the brace
that follows the marker. -/
def find_citation (l : String) : String :=
  let s := l.data
  let x := pyFind s "\\citation\x7b".data
  if x ≥ 0 then
    let y := pyFind s ['{']
    let z := pyFindFrom s ['}'] y
    ⟨pySlice s (y + 1) z⟩
  else
    let x := pyFind s "\\abx@aux@cite\x7b".data
    if x ≥ 0 then
      let y := pyFind s ['{']
      let z := pyFindFrom s ['}'] y
      ⟨pySlice s (y + 1) z⟩
    else ""

/-- The citation pipeline of `load_references` (lines 120, 132-136): strip
each raw line, apply `find_citation`, drop empty results, strip spaces,
split each group on commas and flatten. -/
def citation_groups (rawLines : List String) : List String :=
  let lines := rawLines.map (fun s => (⟨pyStrip s.data⟩ : String))
  let cites := lines.map find_citation
  let cites := (cites.filter (fun c => c ≠ "")).map (fun c => (⟨pyStripSp c.data⟩ : String))
  (cites.map (fun c => (pySplitComma c.data).map (fun w => (⟨w⟩ : String)))).flatten

/-- The value `load_references` returns (line 137): `sorted(set(...))` of the
flattened citation groups. -/
def load_references_keys (rawLines : List String) : List String :=
  pySortedSet (citation_groups rawLines)

/-- A file system: maps a path to the file's raw lines; `none` = missing. -/
def FS := String → Option (List String)

/-- Model of `load_references` (lines 111-137).  The `\bibstyle` scan only sets a
logging global and does not influence the returned value, so it is omitted.
The function exits fatally when neither `bibname` nor `bibname + ".aux"`
exists; otherwise it opens `bibname` itself — Python's `open` raises an
uncaught `FileNotFoundError` when only `bibname + ".aux"` exists. -/
def load_references (fs : FS) (bibname : String) : Except RunError (List String) :=
  if (fs bibname).isNone && (fs (bibname ++ ".aux")).isNone then
    .error (.systemExit 1)
  else
    match fs bibname with
    | none => .error (.fileNotFoundError bibname)
    | some rawLines => .ok (load_references_keys rawLines)

/-- Model of `strip_comment` (lines 142-147). -/
def strip_comment (l : String) : String :=
  let pos := pyFind l.data ['%']
  if pos ≥ 0 then ⟨l.data.take pos.toNat⟩ else l

/-- Model of `validate_bib` (lines 149-152): `tmp[0] == "@" and tmp[-3] == "}"`, with
Python's short-circuit `and` and `IndexError` on out-of-range indexing. -/
def validate_bib (tmp : List Char) : Except PyErr Bool :=
  match pyIndex tmp 0 with
  | .error e => .error e
  | .ok c0 =>
    if c0 == '@' then
      match pyIndex tmp (-3) with
      | .error e => .error e
      | .ok c3 => .ok (c3 == '}')
    else .ok false

/-- The `urls["DBLP"]` endpoint (line 155). -/
def urlDBLP : String := "https://dblp.uni-trier.de/rec"

/-- The `urls["DOI"]` endpoint (line 156). -/
def urlDOI : String := "https://dblp.org/doi"

/-- The `dblp` flag of `download_dblp` (lines 162, 167-169): substring test. -/
def use_dblp (label : String) : Bool := strContains label "DBLP:"

/-- The `key` computed by `download_dblp` (lines 165-172): drop the first 5
characters when the label contains `DBLP:`, else the first 4 when it
contains `DOI:`, else the label itself. -/
def resolve_key (label : String) : String :=
  if strContains label "DBLP:" then pyDrop label 5
  else if strContains label "DOI:" then pyDrop label 4
  else label

/-- The URL `download_dblp` requests (line 177). -/
def request_url (label : String) : String :=
  (if use_dblp label then urlDBLP else urlDOI) ++ "/" ++ resolve_key label ++ ".bib"

/-- The error string assigned at line 180. -/
def err_string (key url : String) : String :=
  "ERROR key: " ++ key ++ ", url: " ++ url

/-- Index of the last comma in a character list, if any. -/
def lastComma (l : List Char) : Option Nat :=
  match l.reverse.findIdx? (· == ',') with
  | some r => some (l.length - 1 - r)
  | none => none

/-- Model of Python `re.sub('{.+,', '{' + rep + ',', s, count=1)` (line 200):
scan left to right for the first `{` at which the pattern matches; `.` does
not match a newline and `+` is greedy, so a match at a `{` needs a comma at
offset at least 2 within the newline-free run after the brace, and the match
extends to the last such comma. -/
def re_sub_key (rep : List Char) : List Char → List Char
  | [] => []
  | c :: rest =>
    if c == '{' then
      match lastComma ((rest.takeWhile (fun d => d ≠ '\n')).drop 1) with
      | some k0 => '{' :: (rep ++ ',' :: rest.drop (k0 + 2))
      | none => c :: re_sub_key rep rest
    else c :: re_sub_key rep rest

/-- An HTTP response, as the script sees it: `requests.get(url)` yields an
object whose `.text` is read; the status code is carried but never read. -/
structure Response where
  status_code : Nat
  text : String

/-- The HTTP layer as a total map from URL to response. -/
def Http := String → Response

/-- Model of `download_dblp` (lines 160-202).  `err` is assigned before validation, so
when `validate_bib` raises the bare `except:` catches it and the function
still returns `(None, err)`; on a valid body the citation key is rewritten
with the reverse alias of the original label when one exists, else with the
label itself. -/
def download_dblp (revalias : Dict) (http : Http) (label : String) :
    Option String × String :=
  let url := request_url label
  let bib := (http url).text
  let err := err_string (resolve_key label) url
  match validate_bib bib.data with
  | .error _ => (none, err)
  | .ok false => (none, err)
  | .ok true =>
    let rep := (dget revalias label).getD label
    (some ⟨re_sub_key rep.data bib.data⟩, err)

/-- One iteration of the bibcloud alias loop (lines 382-394), from tables
`t = (ALIAS, REVALIAS)`.  The returned Bool records whether the
`"Alias parsing - bad line"` warning was printed for this line.  The loop
never aborts the run: every line yields a normally returned result. -/
def process_bibcloud_line (t : Dict × Dict) (l : String) : (Dict × Dict) × Bool :=
  let x := pyWords (strip_comment l).data
  match x with
  | t0 :: t1 :: _ =>
    if pyFind t1 "DBLP:".data ≥ 0 || pyFind t1 "DOI:".data ≥ 0 then
      ((dput t.1 ⟨t0⟩ ⟨t1⟩, dput t.2 ⟨t1⟩ ⟨t0⟩), false)
    else (t, true)
  | _ :: [] => (t, true)
  | [] => (t, false)

/-- The body of the aliasfile (Format B) loop (lines 398-402), processing a
single yaml entry `e = (alias, key)` against tables `t = (ALIAS, REVALIAS)`:
forward and reverse writes, plus a second reverse write keyed by the
5-character-stripped key when the key contains `DBLP`. -/
def alias_step (t : Dict × Dict) (e : String × String) : Dict × Dict :=
  let A := dput t.1 e.1 e.2
  let R := dput t.2 e.2 e.1
  let R := if strContains e.2 "DBLP" then dput R (pyDrop e.2 5) e.1 else R
  (A, R)

/-- The aliasfile (Format B) loop (lines 396-402): fold the yaml `aliases`
entries in order over the tables `(ALIAS, REVALIAS)`. -/
def load_aliasfile (init : Dict × Dict) (entries : List (String × String)) :
    Dict × Dict :=
  entries.foldl alias_step init

/-- The key-list selection of main (lines 358-372): `latex_citations` starts
empty, is set from the aux file when `--aux` was given (`auxKeys = some _`),
and is then overwritten by the positional keys whenever any were given. -/
def select_citations (auxKeys : Option (List String)) (keys : List String) :
    List String :=
  let latex : List String := []
  let latex :=
    match auxKeys with
    | some cs => cs
    | none => latex
  if keys.length > 0 then keys else latex

/-! ### Lemmas about the Python string primitives -/

/-- Bridge between the boolean prefix test and the prefix relation. -/
theorem isPrefixOfB_iff {x y : List Char} : x.isPrefixOf y = true ↔ x <+: y :=
  List.isPrefixOf_iff_prefix

theorem pyFindAux_isSome_iff (pat : List Char) (s : List Char) :
    (pyFindAux pat s).isSome ↔ pat <:+: s := by
  induction s with
  | nil =>
    by_cases hp : pat = [] <;> simp [pyFindAux, hp, List.isEmpty_iff]
  | cons c t ih =>
    by_cases hp : pat.isPrefixOf (c :: t)
    · simp [pyFindAux, hp]
      exact (isPrefixOfB_iff.mp hp).isInfix
    · have hnp : ¬ pat <+: c :: t := fun h => hp (isPrefixOfB_iff.mpr h)
      rw [List.infix_cons_iff]
      simp [pyFindAux, hp, ih, hnp]

theorem pyContains_iff {s pat : List Char} :
    pyContains s pat = true ↔ pat <:+: s := by
  rw [pyContains, pyFindAux_isSome_iff]

theorem strContains_iff {s pat : String} :
    strContains s pat = true ↔ pat.data <:+: s.data :=
  pyContains_iff

theorem strContains_append_self (pat r : String) :
    strContains (pat ++ r) pat = true := by
  rw [strContains_iff, String.data_append]
  exact (List.prefix_append _ _).isInfix

/-! ### The code-point order used by Python `sorted` -/

theorem lexLe_iff_not_lex (x y : List Char) :
    lexLe x y = true ↔ ¬ List.Lex (· < ·) y x := by
  induction x generalizing y with
  | nil =>
    cases y <;> simp [lexLe, List.Lex.not_nil_right]
  | cons a x ih =>
    cases y with
    | nil =>
      simp only [lexLe, Bool.false_eq_true, false_iff, not_not]
      exact List.Lex.nil
    | cons b y =>
      rcases lt_trichotomy a b with h | h | h
      · simp only [lexLe, if_pos h, true_iff]
        intro hl
        cases hl with
        | rel h' => exact absurd h (not_lt_of_gt h')
        | cons h' => exact absurd h (lt_irrefl _)
      · subst h
        simp only [lexLe, if_neg (lt_irrefl a), ih]
        constructor
        · intro hn hl
          cases hl with
          | rel h' => exact absurd h' (lt_irrefl _)
          | cons h' => exact hn h'
        · intro hn hl
          exact hn (List.Lex.cons hl)
      · simp only [lexLe, if_neg (not_lt_of_gt h), if_pos h, Bool.false_eq_true,
          false_iff, not_not]
        exact List.Lex.rel h

theorem strLe_iff {a b : String} : strLe a b = true ↔ a ≤ b := by
  rw [strLe, lexLe_iff_not_lex, ← not_lt]
  constructor
  · intro h hlt
    exact h (String.lt_iff_toList_lt.mp hlt)
  · intro h hlex
    exact h (String.lt_iff_toList_lt.mpr hlex)

theorem pySorted_sorted (l : List String) : List.Sorted (· ≤ ·) (pySorted l) := by
  haveI : IsTotal String (fun a b => strLe a b = true) :=
    ⟨fun a b => by
      rcases le_total a b with h | h
      · exact Or.inl (strLe_iff.mpr h)
      · exact Or.inr (strLe_iff.mpr h)⟩
  haveI : IsTrans String (fun a b => strLe a b = true) :=
    ⟨fun a b c hab hbc => strLe_iff.mpr (le_trans (strLe_iff.mp hab) (strLe_iff.mp hbc))⟩
  exact (List.sorted_insertionSort _ l).imp (fun h => strLe_iff.mp h)

theorem pySorted_perm (l : List String) : (pySorted l).Perm l :=
  List.perm_insertionSort _ l

theorem pySortedSet_sorted (l : List String) :
    List.Sorted (· ≤ ·) (pySortedSet l) :=
  pySorted_sorted _

theorem pySortedSet_nodup (l : List String) : (pySortedSet l).Nodup :=
  ((pySorted_perm l.dedup).symm.nodup) (List.nodup_dedup l)

theorem mem_pySortedSet {a : String} {l : List String} :
    a ∈ pySortedSet l ↔ a ∈ l :=
  (pySorted_perm l.dedup).mem_iff.trans (List.mem_dedup)

/-! ### Lemmas about the dict model and the alias tables -/

theorem dget_dput_self (m : Dict) (k v : String) : dget (dput m k v) k = some v := by
  rw [dget, dput, List.reverse_append]
  simp

theorem dget_dput_ne (m : Dict) {k' k : String} (v : String) (h : k' ≠ k) :
    dget (dput m k' v) k = dget m k := by
  rw [dget, dput, List.reverse_append, dget]
  simp [List.find?_cons, h]

theorem load_aliasfile_append (init : Dict × Dict) (es fs : List (String × String)) :
    load_aliasfile init (es ++ fs) = load_aliasfile (load_aliasfile init es) fs :=
  List.foldl_append _ _ _ _

theorem dget_fst_alias_step (t : Dict × Dict) (e : String × String) {k : String}
    (h : e.1 ≠ k) : dget (alias_step t e).1 k = dget t.1 k := by
  rw [alias_step]
  exact dget_dput_ne _ _ h

theorem dget_snd_alias_step (t : Dict × Dict) (e : String × String) {k : String}
    (h1 : e.2 ≠ k) (h2 : strContains e.2 "DBLP" = true → pyDrop e.2 5 ≠ k) :
    dget (alias_step t e).2 k = dget t.2 k := by
  rw [alias_step]
  by_cases hc : strContains e.2 "DBLP" = true
  · rw [if_pos hc, dget_dput_ne _ _ (h2 hc), dget_dput_ne _ _ h1]
  · rw [if_neg hc, dget_dput_ne _ _ h1]

theorem dget_fst_alias_step_self (t : Dict × Dict) (e : String × String) :
    dget (alias_step t e).1 e.1 = some e.2 := by
  rw [alias_step]
  exact dget_dput_self _ _ _

/-- A key containing `DBLP` has at least 4 characters, so dropping 5 changes it. -/
theorem pyDrop5_ne_of_contains (s : String) (h : strContains s "DBLP" = true) :
    pyDrop s 5 ≠ s := by
  intro he
  have hinf : ("DBLP".data : List Char) <:+: s.data := strContains_iff.mp h
  have hlen : 4 ≤ s.data.length := by
    have := hinf.length_le
    simpa using this
  have hd : (pyDrop s 5).data = s.data := by rw [he]
  rw [pyDrop] at hd
  have hlen2 : (s.data.drop 5).length = s.data.length := congrArg List.length hd
  rw [List.length_drop] at hlen2
  omega

theorem dget_snd_alias_step_self (t : Dict × Dict) (e : String × String) :
    dget (alias_step t e).2 e.2 = some e.1 := by
  rw [alias_step]
  by_cases hc : strContains e.2 "DBLP" = true
  · rw [if_pos hc, dget_dput_ne _ _ (pyDrop5_ne_of_contains _ hc), dget_dput_self]
  · rw [if_neg hc, dget_dput_self]

theorem dget_snd_alias_step_strip (t : Dict × Dict) (e : String × String)
    (h : strContains e.2 "DBLP" = true) :
    dget (alias_step t e).2 (pyDrop e.2 5) = some e.1 := by
  rw [alias_step]
  rw [if_pos h]
  exact dget_dput_self _ _ _

theorem dget_fst_load_aliasfile (t : Dict × Dict) (es : List (String × String))
    {k : String} (h : ∀ e ∈ es, e.1 ≠ k) :
    dget (load_aliasfile t es).1 k = dget t.1 k := by
  induction es generalizing t with
  | nil => rfl
  | cons e es ih =>
    rw [show load_aliasfile t (e :: es) = load_aliasfile (alias_step t e) es from rfl]
    rw [ih _ (fun e' he' => h e' (List.mem_cons_of_mem _ he'))]
    exact dget_fst_alias_step _ _ (h e (List.mem_cons_self _ _))

theorem dget_snd_load_aliasfile (t : Dict × Dict) (es : List (String × String))
    {k : String}
    (h : ∀ e ∈ es, e.2 ≠ k ∧ (strContains e.2 "DBLP" = true → pyDrop e.2 5 ≠ k)) :
    dget (load_aliasfile t es).2 k = dget t.2 k := by
  induction es generalizing t with
  | nil => rfl
  | cons e es ih =>
    rw [show load_aliasfile t (e :: es) = load_aliasfile (alias_step t e) es from rfl]
    rw [ih _ (fun e' he' => h e' (List.mem_cons_of_mem _ he'))]
    exact dget_snd_alias_step _ _ (h e (List.mem_cons_self _ _)).1
      (h e (List.mem_cons_self _ _)).2

/-! ### Characterisation of the structural validity check -/

theorem pyIndex_zero_cons (c : Char) (t : List Char) : pyIndex (c :: t) 0 = .ok c := by
  simp [pyIndex]

theorem pyIndex_neg3_short (c : Char) (t : List Char) (h : t.length < 2) :
    pyIndex (c :: t) (-3) = .error .indexError := by
  simp only [pyIndex, List.length_cons]
  rw [if_pos (show (-3 : Int) < 0 by norm_num)]
  have hcond : (-3 : Int) + ((t.length + 1 : Nat) : Int) < 0 := by push_cast; omega
  rw [if_pos hcond]

theorem pyIndex_neg3_long (c : Char) (t : List Char) (h : 2 ≤ t.length) :
    pyIndex (c :: t) (-3) =
      match (c :: t)[t.length - 2]? with
      | some x => .ok x
      | none => .error .indexError := by
  simp only [pyIndex, List.length_cons]
  rw [if_pos (show (-3 : Int) < 0 by norm_num)]
  have hcond : ¬ ((-3 : Int) + ((t.length + 1 : Nat) : Int) < 0) := by push_cast; omega
  rw [if_neg hcond]
  have htn : ((-3 : Int) + ((t.length + 1 : Nat) : Int)).toNat = t.length - 2 := by
    push_cast
    omega
  rw [htn]

theorem validate_bib_eq_ok_true_iff (l : List Char) :
    validate_bib l = .ok true ↔ l.head? = some '@' ∧ l.reverse[2]? = some '}' := by
  cases l with
  | nil => simp [validate_bib, pyIndex]
  | cons c t =>
    by_cases hc : c = '@'
    · subst hc
      rcases Nat.lt_or_ge t.length 2 with hlen | hlen
      · have hnone : ('@' :: t).reverse[2]? = none :=
          List.getElem?_eq_none (by simp only [List.length_reverse, List.length_cons]; omega)
        rw [hnone]
        simp [validate_bib, pyIndex_zero_cons, pyIndex_neg3_short _ _ hlen]
      · have hlt : t.length - 2 < ('@' :: t).length := by
          simp only [List.length_cons]
          omega
        have hrev : ('@' :: t).reverse[2]? = ('@' :: t)[t.length - 2]? := by
          rw [List.getElem?_reverse (by simp only [List.length_cons]; omega)]
          have hidx : ('@' :: t).length - 1 - 2 = t.length - 2 := by
            simp only [List.length_cons]
            omega
          rw [hidx]
        rw [hrev, List.getElem?_eq_getElem hlt]
        simp [validate_bib, pyIndex_zero_cons, pyIndex_neg3_long _ _ hlen,
          List.getElem?_eq_getElem hlt]
    · simp [validate_bib, pyIndex_zero_cons, hc]

theorem validate_bib_not_ok_true (l : List Char)
    (h : l.head? ≠ some '@' ∨ l.reverse[2]? ≠ some '}') :
    validate_bib l ≠ .ok true := by
  rw [Ne, validate_bib_eq_ok_true_iff]
  tauto

/-! ### Positioning lemmas for the search and slice primitives -/

theorem isPrefixOf_single_cons (c x : Char) (xs : List Char) :
    [c].isPrefixOf (x :: xs) = (c == x) := by
  simp [List.isPrefixOf]

theorem pyFindAux_single_append {c : Char} (a r : List Char) (h : c ∉ a) :
    pyFindAux [c] (a ++ c :: r) = some a.length := by
  induction a with
  | nil => simp [pyFindAux, List.isPrefixOf]
  | cons x xs ih =>
    have hcx : ¬ (c == x) = true := by
      simp only [beq_iff_eq]
      intro he
      exact h (by simp [he])
    have hx : ¬ ([c].isPrefixOf (x :: (xs ++ c :: r)) = true) := by
      rw [isPrefixOf_single_cons]
      exact hcx
    rw [List.cons_append, pyFindAux, if_neg hx,
      ih (fun hm => h (List.mem_cons_of_mem _ hm))]
    rfl

theorem pyFind_single_append {c : Char} (a r : List Char) (h : c ∉ a) :
    pyFind (a ++ c :: r) [c] = (a.length : Int) := by
  rw [pyFind, pyFindAux_single_append a r h]

theorem pyFind_nonneg_of_contains {s pat : List Char} (h : pyContains s pat = true) :
    0 ≤ pyFind s pat := by
  rw [pyContains] at h
  obtain ⟨n, hn⟩ := Option.isSome_iff_exists.mp h
  rw [pyFind, hn]
  exact Int.natCast_nonneg n

theorem pyFind_neg_of_not_contains {s pat : List Char}
    (h : pyContains s pat = false) : pyFind s pat = -1 := by
  rw [pyFind]
  cases hfa : pyFindAux pat s with
  | none => rfl
  | some n =>
    rw [pyContains, hfa] at h
    simp at h

theorem pyFindFrom_natCast (s pat : List Char) (st : Nat) :
    pyFindFrom s pat (st : Int) =
      match pyFindAux pat (s.drop st) with
      | some k => ((st + k : Nat) : Int)
      | none => -1 := by
  rw [pyFindFrom]
  rw [if_neg (not_lt.mpr (Int.natCast_nonneg st))]
  rw [Int.toNat_natCast]
  cases pyFindAux pat (s.drop st) with
  | none => rfl
  | some k => push_cast; rfl

theorem pySlice_between (a b tail : List Char) (x : Char) :
    pySlice (a ++ x :: (b ++ tail)) ((a.length : Int) + 1)
      ((a.length + (b.length + 1) : Nat) : Int) = b := by
  have hn : (a ++ x :: (b ++ tail)).length = a.length + 1 + b.length + tail.length := by
    simp
    omega
  rw [pySlice, hn]
  rw [if_neg (show ¬ ((a.length : Int) + 1 < 0) by push_cast; omega)]
  rw [if_neg (show ¬ (((a.length + (b.length + 1) : Nat) : Int) < 0) by push_cast; omega)]
  have h1 : (min ((a.length : Int) + 1)
      ((a.length + 1 + b.length + tail.length : Nat) : Int)).toNat = a.length + 1 := by
    push_cast
    omega
  have h2 : (min ((a.length + (b.length + 1) : Nat) : Int)
      ((a.length + 1 + b.length + tail.length : Nat) : Int)).toNat
      = a.length + 1 + b.length := by
    push_cast
    omega
  rw [h1, h2]
  rw [show a ++ x :: (b ++ tail) = (a ++ x :: b) ++ tail from by simp]
  rw [show a.length + 1 + b.length = (a ++ x :: b).length from by simp; omega]
  rw [List.take_left]
  rw [show a ++ x :: b = (a ++ [x]) ++ b from by simp]
  rw [show a.length + 1 = (a ++ [x]).length from by simp]
  rw [List.drop_left]

/-! ### Lemmas about the citation-key substitution `re_sub_key` -/

theorem lastComma_append (l : List Char) (h : ',' ∉ l) :
    lastComma (l ++ [',']) = some l.length := by
  rw [lastComma, List.reverse_append]
  simp only [List.reverse_cons, List.reverse_nil, List.nil_append, List.singleton_append,
    List.findIdx?_cons]
  rw [if_pos (by simp)]
  simp

theorem re_sub_key_append (rep t s : List Char) (h : '{' ∉ t) :
    re_sub_key rep (t ++ s) = t ++ re_sub_key rep s := by
  induction t with
  | nil => rfl
  | cons c cs ih =>
    have hc : ¬ (c == '{') = true := by
      simp only [beq_iff_eq]
      intro he
      exact h (by simp [he])
    rw [List.cons_append, re_sub_key, if_neg hc,
      ih (fun hm => h (List.mem_cons_of_mem _ hm)), List.cons_append]

theorem takeWhile_ne_nl (k r : List Char) (h : '\n' ∉ k) :
    (k ++ ',' :: '\n' :: r).takeWhile (fun d => d ≠ '\n') = k ++ [','] := by
  induction k with
  | nil => simp
  | cons c cs ih =>
    have hc : c ≠ '\n' := fun he => h (by simp [he])
    rw [List.cons_append, List.takeWhile_cons, if_pos (by simp [hc])]
    rw [ih (fun hm => h (List.mem_cons_of_mem _ hm)), List.cons_append]

theorem re_sub_key_hit (rep k r : List Char) (hk : k ≠ [])
    (hnl : '\n' ∉ k) (hcm : ',' ∉ k) :
    re_sub_key rep ('{' :: (k ++ ',' :: '\n' :: r)) = '{' :: (rep ++ ',' :: '\n' :: r) := by
  obtain ⟨c, k', rfl⟩ : ∃ c k', k = c :: k' := by
    cases k with
    | nil => exact absurd rfl hk
    | cons c k' => exact ⟨c, k', rfl⟩
  rw [re_sub_key, if_pos (by simp)]
  have hrun : ((c :: k') ++ ',' :: '\n' :: r).takeWhile (fun d => d ≠ '\n')
      = (c :: k') ++ [','] := takeWhile_ne_nl _ _ hnl
  rw [hrun]
  have hdrop1 : ((c :: k') ++ [',']).drop 1 = k' ++ [','] := by simp
  rw [hdrop1]
  have hcm' : ',' ∉ k' := fun hm => hcm (List.mem_cons_of_mem _ hm)
  rw [lastComma_append _ hcm']
  have hdrop2 : ((c :: k') ++ ',' :: '\n' :: r).drop (k'.length + 2) = '\n' :: r := by
    rw [List.cons_append, show k'.length + 2 = k'.length + 1 + 1 from rfl,
      List.drop_succ_cons]
    have hda := @List.drop_append Char k' (',' :: '\n' :: r) 1
    simpa using hda
  show '{' :: (rep ++ ',' :: ((c :: k') ++ ',' :: '\n' :: r).drop (k'.length + 2))
      = '{' :: (rep ++ ',' :: '\n' :: r)
  rw [hdrop2]

/-! ### Extraction shape of `find_citation` -/

theorem find_citation_between (a b r : List Char)
    (ha : '{' ∉ a) (hb : '}' ∉ b)
    (hm : pyContains (a ++ '{' :: (b ++ '}' :: r)) "\\citation\x7b".data = true
        ∨ pyContains (a ++ '{' :: (b ++ '}' :: r)) "\\abx@aux@cite\x7b".data = true) :
    find_citation ⟨a ++ '{' :: (b ++ '}' :: r)⟩ = ⟨b⟩ := by
  have hy : pyFind (a ++ '{' :: (b ++ '}' :: r)) ['{'] = (a.length : Int) :=
    pyFind_single_append a (b ++ '}' :: r) ha
  have hdropA : (a ++ '{' :: (b ++ '}' :: r)).drop a.length = '{' :: b ++ '}' :: r := by
    have := @List.drop_append Char a ('{' :: b ++ '}' :: r) 0
    simpa using this
  have hfa : pyFindAux ['}'] ('{' :: b ++ '}' :: r) = some (b.length + 1) := by
    have h1 : ('}' : Char) ∉ '{' :: b := by
      intro hmem
      rcases List.mem_cons.mp hmem with h2 | h2
      · exact absurd h2 (by decide)
      · exact hb h2
    have h2 := pyFindAux_single_append ('{' :: b) r h1
    simpa using h2
  have hz : pyFindFrom (a ++ '{' :: (b ++ '}' :: r)) ['}'] ((a.length : Int))
      = ((a.length + (b.length + 1) : Nat) : Int) := by
    rw [pyFindFrom_natCast, hdropA, hfa]
  have hslice : pySlice (a ++ '{' :: (b ++ '}' :: r)) ((a.length : Int) + 1)
      ((a.length + (b.length + 1) : Nat) : Int) = b := pySlice_between a b ('}' :: r) '{'
  by_cases h1 : pyContains (a ++ '{' :: (b ++ '}' :: r)) "\\citation\x7b".data = true
  · have hge : pyFind (a ++ '{' :: (b ++ '}' :: r)) "\\citation\x7b".data ≥ 0 :=
      pyFind_nonneg_of_contains h1
    simp only [find_citation]
    rw [if_pos hge, hy, hz, hslice]
  · have henq : pyFind (a ++ '{' :: (b ++ '}' :: r)) "\\citation\x7b".data = -1 :=
      pyFind_neg_of_not_contains (by simpa using h1)
    have h2 : pyContains (a ++ '{' :: (b ++ '}' :: r)) "\\abx@aux@cite\x7b".data = true := by
      tauto
    have hge : pyFind (a ++ '{' :: (b ++ '}' :: r)) "\\abx@aux@cite\x7b".data ≥ 0 :=
      pyFind_nonneg_of_contains h2
    simp only [find_citation]
    rw [if_neg (by rw [henq]; norm_num), if_pos hge, hy, hz, hslice]

/-! ### Endpoint selection and URL construction -/

theorem resolve_key_dblp_prefixed (r : String) : resolve_key ("DBLP:" ++ r) = r := by
  rw [resolve_key, if_pos (strContains_append_self "DBLP:" r), pyDrop, String.data_append]
  rw [show ("DBLP:".data) = ['D', 'B', 'L', 'P', ':'] from rfl]
  apply String.ext
  simp

theorem resolve_key_doi_prefixed (r : String)
    (hnd : strContains ("DOI:" ++ r) "DBLP:" = false) :
    resolve_key ("DOI:" ++ r) = r := by
  rw [resolve_key, if_neg (by rw [hnd]; simp),
    if_pos (strContains_append_self "DOI:" r), pyDrop, String.data_append]
  rw [show ("DOI:".data) = ['D', 'O', 'I', ':'] from rfl]
  apply String.ext
  simp

theorem resolve_key_bare (label : String)
    (h1 : strContains label "DBLP:" = false) (h2 : strContains label "DOI:" = false) :
    resolve_key label = label := by
  rw [resolve_key, if_neg (by rw [h1]; simp), if_neg (by rw [h2]; simp)]

theorem request_url_dblp_prefixed (r : String) :
    request_url ("DBLP:" ++ r) = "https://dblp.uni-trier.de/rec/" ++ r ++ ".bib" := by
  rw [request_url, resolve_key_dblp_prefixed, use_dblp,
    if_pos (strContains_append_self "DBLP:" r), urlDBLP]
  apply String.ext
  simp [String.data_append]

theorem request_url_doi_prefixed (r : String)
    (hnd : strContains ("DOI:" ++ r) "DBLP:" = false) :
    request_url ("DOI:" ++ r) = "https://dblp.org/doi/" ++ r ++ ".bib" := by
  rw [request_url, resolve_key_doi_prefixed r hnd, use_dblp, if_neg (by rw [hnd]; simp),
    urlDOI]
  apply String.ext
  simp [String.data_append]

theorem request_url_bare (label : String)
    (h1 : strContains label "DBLP:" = false) (h2 : strContains label "DOI:" = false) :
    request_url label = "https://dblp.org/doi/" ++ label ++ ".bib" := by
  rw [request_url, resolve_key_bare label h1 h2, use_dblp, if_neg (by rw [h1]; simp),
    urlDOI]
  apply String.ext
  simp [String.data_append]

/-! ### Outcome lemmas for `download_dblp` -/

theorem download_dblp_invalid (revalias : Dict) (http : Http) (label : String)
    (h : validate_bib ((http (request_url label)).text).data ≠ .ok true) :
    download_dblp revalias http label
      = (none, err_string (resolve_key label) (request_url label)) := by
  simp only [download_dblp]
  cases hv : validate_bib ((http (request_url label)).text).data with
  | error e => rfl
  | ok b =>
    cases b with
    | false => rfl
    | true => exact absurd hv h

theorem download_dblp_valid (revalias : Dict) (http : Http) (label : String)
    (h : validate_bib ((http (request_url label)).text).data = .ok true) :
    download_dblp revalias http label
      = (some ⟨re_sub_key ((dget revalias label).getD label).data
            ((http (request_url label)).text).data⟩,
         err_string (resolve_key label) (request_url label)) := by
  simp only [download_dblp]
  rw [h]

/-! ### Claim theorems -/

/-- C2, counterexample: the claim says that when both an aux path and explicit
keys are supplied, the aux-extracted citation keys are used.  With aux keys
`["a"]` and explicit keys `["b"]` the selected list is `["b"]`, not `["a"]`:
the positional keys overwrite the aux list (lines 366-372). -/
theorem c2_counterexample :
    select_citations (some ["a"]) ["b"] = ["b"]
      ∧ select_citations (some ["a"]) ["b"] ≠ ["a"] := by
  decide

/-- C2, amended: explicit keys take priority; the aux-extracted keys are used
only when no explicit keys were supplied. -/
theorem c2_amended (auxKeys keys : List String) :
    (keys ≠ [] → select_citations (some auxKeys) keys = keys)
      ∧ select_citations (some auxKeys) [] = auxKeys := by
  constructor
  · intro h
    simp only [select_citations]
    exact if_pos (List.length_pos.mpr h)
  · rfl

/-- C2, witness for the amended claim at aux keys `["a"]`, explicit `["b"]`. -/
theorem c2_amended_witness :
    (["b"] : List String) ≠ [] ∧ select_citations (some ["a"]) ["b"] = ["b"] :=
  ⟨by decide, (c2_amended ["a"] ["b"]).1 (by decide)⟩

/-- C3: the claim says the extractor falls back to reading `<name>.aux` when
`<name>` is missing but `<name>.aux` exists.  In the code the existence check
passes in that situation, but `open(bibname)` still opens `<name>` and raises
an uncaught `FileNotFoundError` that terminates the run (first conjunct);
the `sys.exit(1)` fatal branch fires only when both are missing (second
conjunct); the extraction itself works when `<name>` exists (third
conjunct). -/
theorem c3_code_behavior :
    load_references
        (fun n => if n = "paper.aux" then some ["\\citation\x7ba\x7d"] else none)
        "paper" = .error (.fileNotFoundError "paper")
      ∧ load_references (fun _ => none) "paper" = .error (.systemExit 1)
      ∧ load_references
          (fun n => if n = "paper" then some ["\\citation\x7ba\x7d"] else none)
          "paper" = .ok ["a"] :=
  ⟨rfl, rfl, rfl⟩

/-- C5, counterexample: the claim says the extractor's result never contains
the empty string.  The line `\citation{a,}` yields the group `"a,"`, whose
comma split contributes an empty fragment after the blank-filtering step
already happened, so the result is `["", "a"]`. -/
theorem c5_counterexample :
    load_references_keys ["\\citation\x7ba,\x7d"] = ["", "a"]
      ∧ "" ∈ load_references_keys ["\\citation\x7ba,\x7d"] := by
  decide

/-- C5, amended: the result is the lexicographically sorted, duplicate-free
enumeration of the comma-split citation groups (blank groups are dropped
before the split, so empty fragments produced by the split survive); on the
claim's own example the result is `["a", "b", "c"]`. -/
theorem c5_amended :
    (∀ rawLines : List String,
        List.Sorted (· ≤ ·) (load_references_keys rawLines)
          ∧ (load_references_keys rawLines).Nodup
          ∧ ∀ s, s ∈ load_references_keys rawLines ↔ s ∈ citation_groups rawLines)
      ∧ load_references_keys ["\\citation\x7bb,a\x7d", "\\citation\x7ba,c\x7d"]
          = ["a", "b", "c"] :=
  ⟨fun rawLines => ⟨pySortedSet_sorted _, pySortedSet_nodup _,
    fun _ => mem_pySortedSet⟩, by decide⟩

/-- C6, counterexample: the claim says the extracted key is the substring
between the first opening brace after the marker and the next closing brace.
On the line `{x} \citation{a}` the code extracts `"x"`, because both branches
look up the first opening brace of the whole line, not of the marker. -/
theorem c6_counterexample :
    find_citation "\x7bx\x7d \\citation\x7ba\x7d" = "x"
      ∧ find_citation "\x7bx\x7d \\citation\x7ba\x7d" ≠ "a" := by
  decide

/-- C6, amended: for a line containing either marker, the extracted string is
the substring between the first opening brace of the whole line and the next
closing brace after it (which agrees with the claim exactly when the marker's
brace is the first brace of the line). -/
theorem c6_amended (a b r : List Char)
    (ha : '{' ∉ a) (hb : '}' ∉ b)
    (hm : pyContains (a ++ '{' :: (b ++ '}' :: r)) "\\citation\x7b".data = true
        ∨ pyContains (a ++ '{' :: (b ++ '}' :: r)) "\\abx@aux@cite\x7b".data = true) :
    find_citation ⟨a ++ '{' :: (b ++ '}' :: r)⟩ = ⟨b⟩ :=
  find_citation_between a b r ha hb hm

/-- C6, witness for the amended claim on the line `\citation{a}`. -/
theorem c6_amended_witness :
    ('{' ∉ "\\citation".data) ∧ ('}' ∉ ['a'])
      ∧ pyContains ("\\citation".data ++ '{' :: (['a'] ++ '}' :: []))
          "\\citation\x7b".data = true
      ∧ find_citation ⟨"\\citation".data ++ '{' :: (['a'] ++ '}' :: [])⟩ = ⟨['a']⟩ :=
  ⟨by decide, by decide, by decide,
    c6_amended "\\citation".data ['a'] [] (by decide) (by decide) (Or.inl (by decide))⟩

/-- C9, counterexample: the claim says a legacy alias line with fewer than 2
whitespace tokens is silently skipped with no parse warning.  A one-token
line such as `foo` creates no entry but does print the
`"Alias parsing - bad line"` warning (the `elif len(x)>0` branch,
lines 393-394). -/
theorem c9_counterexample :
    process_bibcloud_line (([], []) : Dict × Dict) "foo" = (([], []), true) := by
  decide

/-- C9, amended: a line with zero tokens after comment stripping is silently
skipped (no entry, no warning); a line with exactly one token creates no
entry but emits the parse warning; in both cases the loop returns normally,
so the run is not aborted. -/
theorem c9_amended (t : Dict × Dict) (l : String) :
    (pyWords (strip_comment l).data = [] →
        process_bibcloud_line t l = (t, false))
      ∧ ∀ w, pyWords (strip_comment l).data = [w] →
          process_bibcloud_line t l = (t, true) := by
  constructor
  · intro h
    simp only [process_bibcloud_line, h]
  · intro w h
    simp only [process_bibcloud_line, h]

/-- C9, witness for the amended claim on a comment-only line and on a
one-token line. -/
theorem c9_amended_witness :
    pyWords (strip_comment "  % note").data = []
      ∧ process_bibcloud_line (([], []) : Dict × Dict) "  % note" = (([], []), false)
      ∧ pyWords (strip_comment "bar").data = ["bar".data]
      ∧ process_bibcloud_line (([], []) : Dict × Dict) "bar" = (([], []), true) :=
  ⟨by decide, (c9_amended ([], []) "  % note").1 (by decide), by decide,
    (c9_amended ([], []) "bar").2 "bar".data (by decide)⟩

/-- Helper for the amended C4: any label containing `DBLP:` is routed to the
DBLP endpoint with its first five characters dropped. -/
theorem request_url_contains_dblp (label : String)
    (h : strContains label "DBLP:" = true) :
    request_url label = "https://dblp.uni-trier.de/rec/" ++ pyDrop label 5 ++ ".bib" := by
  rw [request_url, resolve_key, if_pos h, use_dblp, if_pos h, urlDBLP]
  apply String.ext
  simp [String.data_append]

/-- Helper for the amended C4: any label not containing `DBLP:` but containing
`DOI:` anywhere is routed to the DOI endpoint with its first four characters
dropped. -/
theorem resolve_key_contains_doi (label : String)
    (h1 : strContains label "DBLP:" = false) (h2 : strContains label "DOI:" = true) :
    resolve_key label = pyDrop label 4 := by
  rw [resolve_key, if_neg (by rw [h1]; simp), if_pos h2]

theorem request_url_contains_doi (label : String)
    (h1 : strContains label "DBLP:" = false) (h2 : strContains label "DOI:" = true) :
    request_url label = "https://dblp.org/doi/" ++ pyDrop label 4 ++ ".bib" := by
  rw [request_url, resolve_key_contains_doi label h1 h2, use_dblp,
    if_neg (by rw [h1]; simp), urlDOI]
  apply String.ext
  simp [String.data_append]

/-- C4, counterexample: the claim says a key that does not start with `DBLP:`
or `DOI:` is sent to the DOI endpoint unmodified.  The key `xDBLP:y` starts
with neither prefix, yet the code's substring test routes it to the DBLP
endpoint with its first five characters stripped. -/
theorem c4_counterexample :
    request_url "xDBLP:y" = "https://dblp.uni-trier.de/rec/:y.bib"
      ∧ request_url "xDBLP:y" ≠ "https://dblp.org/doi/xDBLP:y.bib" := by
  decide

/-- C4, amended: the routing tests substring containment, not a prefix.  A key
of the form `DBLP:<r>` goes to the DBLP endpoint as `<r>`; a key `DOI:<r>`
not containing `DBLP:` goes to the DOI endpoint as `<r>`; a key containing
neither substring goes to the DOI endpoint as-is; any key containing `DBLP:`
anywhere goes to the DBLP endpoint with its first five characters dropped;
and any key containing `DOI:` anywhere (but not `DBLP:`) goes to the DOI
endpoint with its first four characters dropped. -/
theorem c4_amended :
    (∀ r : String, request_url ("DBLP:" ++ r)
        = "https://dblp.uni-trier.de/rec/" ++ r ++ ".bib")
      ∧ (∀ r : String, strContains ("DOI:" ++ r) "DBLP:" = false →
          request_url ("DOI:" ++ r) = "https://dblp.org/doi/" ++ r ++ ".bib")
      ∧ (∀ label : String, strContains label "DBLP:" = false →
          strContains label "DOI:" = false →
          request_url label = "https://dblp.org/doi/" ++ label ++ ".bib")
      ∧ (∀ label : String, strContains label "DBLP:" = true →
          request_url label
            = "https://dblp.uni-trier.de/rec/" ++ pyDrop label 5 ++ ".bib")
      ∧ (∀ label : String, strContains label "DBLP:" = false →
          strContains label "DOI:" = true →
          request_url label
            = "https://dblp.org/doi/" ++ pyDrop label 4 ++ ".bib") :=
  ⟨request_url_dblp_prefixed, request_url_doi_prefixed, request_url_bare,
    request_url_contains_dblp, request_url_contains_doi⟩

/-- C4, witness for the amended claim at a DBLP key, a DOI key, a bare key, a
key containing `DBLP:` away from the front, and a key containing `DOI:` away
from the front. -/
theorem c4_amended_witness :
    request_url ("DBLP:" ++ "conf/x/Smith20")
        = "https://dblp.uni-trier.de/rec/" ++ "conf/x/Smith20" ++ ".bib"
      ∧ strContains ("DOI:" ++ "10.1/2") "DBLP:" = false
      ∧ request_url ("DOI:" ++ "10.1/2") = "https://dblp.org/doi/" ++ "10.1/2" ++ ".bib"
      ∧ request_url "10.1/2" = "https://dblp.org/doi/" ++ "10.1/2" ++ ".bib"
      ∧ request_url "xDBLP:y"
          = "https://dblp.uni-trier.de/rec/" ++ pyDrop "xDBLP:y" 5 ++ ".bib"
      ∧ strContains "xDOI:y" "DBLP:" = false
      ∧ strContains "xDOI:y" "DOI:" = true
      ∧ request_url "xDOI:y"
          = "https://dblp.org/doi/" ++ pyDrop "xDOI:y" 4 ++ ".bib" :=
  ⟨c4_amended.1 "conf/x/Smith20", by decide,
    c4_amended.2.1 "10.1/2" (by decide),
    c4_amended.2.2.1 "10.1/2" (by decide) (by decide),
    c4_amended.2.2.2.1 "xDBLP:y" (by decide),
    by decide, by decide,
    c4_amended.2.2.2.2 "xDOI:y" (by decide) (by decide)⟩

/-- C7, counterexample: the claim says that for every structured-alias entry
`alias: key` with `DBLP` in the key, the reverse table maps the stripped key
to that alias.  With entries `foo: DBLP:X` then `bar: X`, the stripped key of
the first entry is `X` (`"DBLP:X"[5:] = "X"`), but the reverse table maps `X`
to `bar`: the later entry's plain reverse write overwrites it (last write
wins). -/
theorem c7_counterexample :
    pyDrop "DBLP:X" 5 = "X"
      ∧ dget (load_aliasfile ([], []) [("foo", "DBLP:X"), ("bar", "X")]).2 "X"
          = some "bar"
      ∧ dget (load_aliasfile ([], []) [("foo", "DBLP:X"), ("bar", "X")]).2 "X"
          ≠ some "foo" := by
  decide

/-- C7, amended: for an entry `(a, k)` of the structured alias file, the
forward table maps `a` to `k` provided no later entry re-uses the alias `a`;
the reverse table maps `k` to `a` provided no later entry writes the reverse
key `k`; and when `k` contains `DBLP`, the reverse table also maps the
5-character-stripped key to `a` provided no later entry writes that reverse
key.  Later writes to the same dict key win. -/
theorem c7_amended (init : Dict × Dict) (pre post : List (String × String))
    (a k : String) :
    ((∀ e ∈ post, e.1 ≠ a) →
        dget (load_aliasfile init (pre ++ (a, k) :: post)).1 a = some k)
      ∧ ((∀ e ∈ post, e.2 ≠ k ∧ (strContains e.2 "DBLP" = true → pyDrop e.2 5 ≠ k)) →
          dget (load_aliasfile init (pre ++ (a, k) :: post)).2 k = some a)
      ∧ (strContains k "DBLP" = true →
          (∀ e ∈ post, e.2 ≠ pyDrop k 5
              ∧ (strContains e.2 "DBLP" = true → pyDrop e.2 5 ≠ pyDrop k 5)) →
          dget (load_aliasfile init (pre ++ (a, k) :: post)).2 (pyDrop k 5) = some a) := by
  have hsplit : load_aliasfile init (pre ++ (a, k) :: post)
      = load_aliasfile (alias_step (load_aliasfile init pre) (a, k)) post := by
    rw [load_aliasfile_append]
    rfl
  refine ⟨fun h => ?_, fun h => ?_, fun hk h => ?_⟩
  · rw [hsplit, dget_fst_load_aliasfile _ _ h]
    exact dget_fst_alias_step_self _ (a, k)
  · rw [hsplit, dget_snd_load_aliasfile _ _ h]
    exact dget_snd_alias_step_self _ (a, k)
  · rw [hsplit, dget_snd_load_aliasfile _ _ h]
    exact dget_snd_alias_step_strip _ (a, k) hk

/-- C7, witness for the amended claim: the claim's own round-trip example
`foo: DBLP:conf/x/Smith20` as the only entry. -/
theorem c7_amended_witness :
    strContains "DBLP:conf/x/Smith20" "DBLP" = true
      ∧ pyDrop "DBLP:conf/x/Smith20" 5 = "conf/x/Smith20"
      ∧ dget (load_aliasfile ([], []) ([] ++ ("foo", "DBLP:conf/x/Smith20") :: [])).1
          "foo" = some "DBLP:conf/x/Smith20"
      ∧ dget (load_aliasfile ([], []) ([] ++ ("foo", "DBLP:conf/x/Smith20") :: [])).2
          "DBLP:conf/x/Smith20" = some "foo"
      ∧ dget (load_aliasfile ([], []) ([] ++ ("foo", "DBLP:conf/x/Smith20") :: [])).2
          (pyDrop "DBLP:conf/x/Smith20" 5) = some "foo" :=
  ⟨by decide, by decide,
    (c7_amended ([], []) [] [] "foo" "DBLP:conf/x/Smith20").1 (by simp),
    (c7_amended ([], []) [] [] "foo" "DBLP:conf/x/Smith20").2.1 (by simp),
    (c7_amended ([], []) [] [] "foo" "DBLP:conf/x/Smith20").2.2 (by decide) (by simp)⟩

/-- C8: a response body that does not start with `@`, or whose third-from-last
character is not `}` (including bodies too short to have one), is rejected no
matter what the HTTP status code was — the status is never inspected, and the
response enters the theorem only through its body text.  The fetcher returns
no record together with the error string naming the resolved key and the
attempted URL. -/
theorem c8_rejects_invalid (revalias : Dict) (http : Http) (label : String)
    (h : ((http (request_url label)).text).data.head? ≠ some '@'
        ∨ ((http (request_url label)).text).data.reverse[2]? ≠ some '}') :
    download_dblp revalias http label
      = (none, err_string (resolve_key label) (request_url label)) :=
  download_dblp_invalid revalias http label (validate_bib_not_ok_true _ h)

/-- C8, witness: a status-200 response whose body is `not found`. -/
theorem c8_rejects_invalid_witness :
    ((((fun _ => ⟨200, "not found"⟩) : Http) (request_url "k")).text).data.head?
        ≠ some '@'
      ∧ download_dblp [] (fun _ => ⟨200, "not found"⟩) "k"
          = (none, err_string (resolve_key "k") (request_url "k")) :=
  ⟨by decide,
    c8_rejects_invalid [] (fun _ => ⟨200, "not found"⟩) "k" (Or.inl (by decide))⟩

/-- C10: `validate_bib` indexes positions 0 and -3 with no length guard: on
the empty body, and on any body of length 1 or 2 starting with `@`, it raises
`IndexError` instead of returning `False`; and whenever validation raises,
the fetcher's bare `except:` (with `err` already assigned) makes the fetch
return no record for that key instead of propagating the error. -/
theorem c10_validate_raises :
    validate_bib "".data = .error .indexError
      ∧ (∀ s : String, s.data.head? = some '@' →
          s.data.length = 1 ∨ s.data.length = 2 →
          validate_bib s.data = .error .indexError)
      ∧ (∀ (revalias : Dict) (http : Http) (label : String),
          validate_bib ((http (request_url label)).text).data = .error .indexError →
          (download_dblp revalias http label).1 = none) := by
  refine ⟨rfl, ?_, ?_⟩
  · intro s h1 h2
    obtain ⟨t, ht⟩ : ∃ t, s.data = '@' :: t := by
      cases hd : s.data with
      | nil => rw [hd] at h1; simp at h1
      | cons c t =>
        rw [hd] at h1
        simp only [List.head?_cons, Option.some_inj] at h1
        exact ⟨t, by rw [h1]⟩
    rw [ht] at h2 ⊢
    have hlen : t.length < 2 := by
      simp only [List.length_cons] at h2
      omega
    simp [validate_bib, pyIndex_zero_cons, pyIndex_neg3_short _ _ hlen]
  · intro revalias http label h
    rw [download_dblp_invalid revalias http label (by rw [h]; simp)]

/-- C10, witness: the body `@x` (length 2, starting with `@`) raises, and a
fetch whose response body is `@x` fails for that key with no record. -/
theorem c10_validate_raises_witness :
    ("@x".data.head? = some '@')
      ∧ ("@x".data.length = 1 ∨ "@x".data.length = 2)
      ∧ validate_bib "@x".data = .error .indexError
      ∧ validate_bib (((( fun _ => ⟨200, "@x"⟩) : Http) (request_url "k")).text).data
          = .error .indexError
      ∧ (download_dblp [] (fun _ => ⟨200, "@x"⟩) "k").1 = none :=
  ⟨by decide, Or.inr (by decide),
    c10_validate_raises.2.1 "@x" (by decide) (Or.inr (by decide)),
    rfl,
    c10_validate_raises.2.2 [] (fun _ => ⟨200, "@x"⟩) "k" rfl⟩

/-- C1, counterexample: the claim says that with no alias, the record's
citation key becomes the prefix-stripped canonical key (`conf/x/Smith20` for
input `DBLP:conf/x/Smith20`).  The code substitutes the full original label,
prefix included: the output key stays `DBLP:conf/x/Smith20`. -/
theorem c1_counterexample :
    (download_dblp []
        (fun _ => ⟨200, "@article\x7bDBLP:conf/x/Smith20,\n\x7d\n\n"⟩)
        "DBLP:conf/x/Smith20").1
      = some "@article\x7bDBLP:conf/x/Smith20,\n\x7d\n\n"
      ∧ (download_dblp []
          (fun _ => ⟨200, "@article\x7bDBLP:conf/x/Smith20,\n\x7d\n\n"⟩)
          "DBLP:conf/x/Smith20").1
        ≠ some "@article\x7bconf/x/Smith20,\n\x7d\n\n" := by
  decide

/-- C1, amended: for a valid response body of the shape
`<head>{<oldkey>,\n<rest>` (no brace before the key's brace, no newline or
comma inside the old key), the fetcher rewrites the citation key to the
reverse alias of the *original input label* when one exists, and to the full
original label itself (prefix included) otherwise; everything after the key's
comma is unchanged. -/
theorem c1_amended (revalias : Dict) (http : Http) (label t k r : String)
    (hresp : (http (request_url label)).text = t ++ "\x7b" ++ k ++ ",\n" ++ r)
    (hval : validate_bib (t ++ "\x7b" ++ k ++ ",\n" ++ r).data = .ok true)
    (ht : '{' ∉ t.data) (hk : k.data ≠ []) (hnl : '\n' ∉ k.data) (hcm : ',' ∉ k.data) :
    download_dblp revalias http label
      = (some (t ++ "\x7b" ++ ((dget revalias label).getD label) ++ ",\n" ++ r),
         err_string (resolve_key label) (request_url label)) := by
  have hlb : ("\x7b" : String).data = ['{'] := rfl
  have hcn : (",\n" : String).data = [',', '\n'] := rfl
  rw [download_dblp_valid revalias http label (by rw [hresp]; exact hval)]
  rw [hresp]
  have hdata : (t ++ "\x7b" ++ k ++ ",\n" ++ r).data
      = t.data ++ ('{' :: (k.data ++ ',' :: '\n' :: r.data)) := by
    simp [String.data_append, hlb, hcn]
  rw [hdata]
  rw [re_sub_key_append ((dget revalias label).getD label).data t.data
    ('{' :: (k.data ++ ',' :: '\n' :: r.data)) ht]
  rw [re_sub_key_hit ((dget revalias label).getD label).data k.data r.data hk hnl hcm]
  have hout : (⟨t.data ++ ('{' :: (((dget revalias label).getD label).data
      ++ ',' :: '\n' :: r.data))⟩ : String)
      = t ++ "\x7b" ++ ((dget revalias label).getD label) ++ ",\n" ++ r := by
    apply String.ext
    simp [String.data_append, hlb, hcn]
  rw [hout]

/-- C1, witness for the amended claim: an aliased key, whose record's
citation key is rewritten to the alias `foo`. -/
theorem c1_amended_witness :
    ((((fun _ => ⟨200, "@article\x7bDBLP:conf/x/Smith20,\n\x7d\n\n"⟩) : Http)
        (request_url "DBLP:conf/x/Smith20")).text
      = "@article" ++ "\x7b" ++ "DBLP:conf/x/Smith20" ++ ",\n" ++ "\x7d\n\n")
      ∧ validate_bib
          ("@article" ++ "\x7b" ++ "DBLP:conf/x/Smith20" ++ ",\n" ++ "\x7d\n\n").data
          = .ok true
      ∧ download_dblp [("DBLP:conf/x/Smith20", "foo")]
          (fun _ => ⟨200, "@article\x7bDBLP:conf/x/Smith20,\n\x7d\n\n"⟩)
          "DBLP:conf/x/Smith20"
        = (some ("@article" ++ "\x7b"
              ++ ((dget [("DBLP:conf/x/Smith20", "foo")] "DBLP:conf/x/Smith20").getD
                    "DBLP:conf/x/Smith20")
              ++ ",\n" ++ "\x7d\n\n"),
           err_string (resolve_key "DBLP:conf/x/Smith20")
             (request_url "DBLP:conf/x/Smith20")) :=
  ⟨by decide, rfl,
    c1_amended [("DBLP:conf/x/Smith20", "foo")]
      (fun _ => ⟨200, "@article\x7bDBLP:conf/x/Smith20,\n\x7d\n\n"⟩)
      "DBLP:conf/x/Smith20" "@article" "DBLP:conf/x/Smith20" "\x7d\n\n"
      (by decide) rfl (by decide) (by decide) (by decide) (by decide)⟩

end Bibutil
